import Mathlib

/-!
Verification of the IPAnalyzer clipboard IP-monitoring tool.

This file gives a shallow embedding of the core logic of `src/main.py` and
`src/config.py`:

* the Python string helpers the validators rely on (`str.split`,
  `str.strip`, `str.count`, substring tests, and the success/value
  behaviour of `int(s)` / `int(s, 16)`);
* the validators `is_valid_ipv4` and `is_valid_ipv6`;
* the two regular expressions of `extract_ips_from_text` together with a
  backtracking matcher reproducing Python `re.finditer` semantics
  (leftmost match, alternation priority, greedy bounded repetition,
  word boundaries), and `extract_ips_from_text` itself;
* the clipboard polling tick `check_clipboard` as a pure state
  transformer emitting its observable effects (snapshots written,
  lookup threads dispatched, display updates);
* `NotificationManager.init_notification_methods` / `show_notification`
  with backend attempts modelled as outcome-valued functions (an
  attempt either returns True, returns False, or raises — the raise is
  absorbed by the `try/except` in the source loop);
* the `check_interval` handling of `Config.load_config`, the settings
  dialog spin box, and the timer start `int(check_interval * 1000)`
  (numbers modelled as rationals; the claims at issue do not depend on
  binary floating point rounding).

Strings are processed as `List Char` via `String.toList`; only ASCII
inputs are at issue, so Python's whitespace/word-character sets are
modelled by their ASCII parts.
-/

namespace IPAnalyzer

/-! ## Python string primitives -/

/-- ASCII whitespace, the characters `str.strip()` and `int()` remove at
the ends of a string (ASCII part of Python's whitespace set). -/
def isWsC (c : Char) : Bool :=
  c = ' ' || c = '\t' || c = '\n' || c = '\r' || c = '\x0b' || c = '\x0c'

/-- `l.strip()`: drop whitespace from both ends. -/
def stripWs (l : List Char) : List Char :=
  ((l.dropWhile isWsC).reverse.dropWhile isWsC).reverse

/-- Python `s.strip()` on strings. -/
def pyStrip (s : String) : String :=
  String.mk (stripWs s.toList)

/-- Python `s.split(sep)` for a one-character separator: splitting the
empty string yields `[""]`, and every separator occurrence produces a
field, so the result is always non-empty. -/
def splitOnC (sep : Char) : List Char → List (List Char)
  | [] => [[]]
  | c :: r =>
    match splitOnC sep r with
    | p :: ps => if c = sep then [] :: p :: ps else (c :: p) :: ps
    | [] => [[c]]

/-- `"::" in s`: two adjacent colons occur somewhere. -/
def hasDC : List Char → Bool
  | a :: b :: t => (a = ':' && b = ':') || hasDC (b :: t)
  | _ => false

/-- `":::" in s`: three adjacent colons occur somewhere. -/
def hasTC : List Char → Bool
  | a :: b :: c :: t => (a = ':' && b = ':' && c = ':') || hasTC (b :: c :: t)
  | _ => false

/-- `s.count("::")`: number of non-overlapping occurrences of `"::"`,
scanning left to right and skipping past each occurrence found. -/
def countDC : List Char → Nat
  | a :: b :: t => if a = ':' && b = ':' then countDC t + 1 else countDC (b :: t)
  | _ => 0

/-- `s.startswith("::")`. -/
def startsDC : List Char → Bool
  | ':' :: ':' :: _ => true
  | _ => false

/-- `s.endswith("::")` (the pattern `"::"` is its own reverse). -/
def endsDC (l : List Char) : Bool :=
  startsDC l.reverse

/-- Decimal digit. -/
def isDigitC (c : Char) : Bool :=
  '0' ≤ c && c ≤ '9'

/-- Hexadecimal digit. -/
def isHexC (c : Char) : Bool :=
  isDigitC c || ('a' ≤ c && c ≤ 'f') || ('A' ≤ c && c ≤ 'F')

/-! ## The success/value behaviour of Python `int()`

`int(part)` and `int(part, 16)` accept surrounding whitespace, an
optional sign, for base 16 an optional `0x`/`0X` with an optional
single underscore after it, and digits separated by single underscores
(no leading, trailing or doubled underscore). -/

/-- Digit run continuation: digits of the given class, where a single
underscore may stand between two digits. -/
def digitsTail (isD : Char → Bool) : List Char → Bool
  | [] => true
  | c :: r =>
    if c = '_' then
      match r with
      | [] => false
      | c' :: r' => isD c' && digitsTail isD r'
    else isD c && digitsTail isD r

/-- A non-empty digit run with legal underscores, starting with a digit. -/
def digitsOk (isD : Char → Bool) : List Char → Bool
  | [] => false
  | c :: r => isD c && digitsTail isD r

/-- Drop one leading `+` or `-`. -/
def dropSign (l : List Char) : List Char :=
  if l.head? = some '+' ∨ l.head? = some '-' then l.tail else l

/-- The digit part of a base-16 literal: an optional `0x`/`0X` which may
be followed by one underscore, then a hex digit run. -/
def hexBody (l : List Char) : Bool :=
  if l.head? = some '0' ∧ (l.tail.head? = some 'x' ∨ l.tail.head? = some 'X') then
    (let r := l.tail.tail
     digitsOk isHexC (if r.head? = some '_' then r.tail else r))
  else digitsOk isHexC l

/-- `int(part, 16)` succeeds (the source only needs success, it discards
the value). -/
def pyIntHexOk (l : List Char) : Bool :=
  hexBody (dropSign (stripWs l))

/-- Value of a digit run, underscores skipped. -/
def decValueAux (acc : Nat) : List Char → Nat
  | [] => acc
  | c :: r =>
    if c = '_' then decValueAux acc r
    else decValueAux (acc * 10 + (c.toNat - '0'.toNat)) r

/-- Value of a decimal digit run. -/
def decValue (l : List Char) : Nat :=
  decValueAux 0 l

/-- `int(part)`: `none` models the `ValueError` path. -/
def pyIntDec (l : List Char) : Option Int :=
  let l1 := stripWs l
  let neg := l1.head? = some '-'
  let l2 := dropSign l1
  if digitsOk isDigitC l2 then
    some ((if neg then -1 else 1) * (decValue l2 : Int))
  else none

/-! ## The validators (`src/main.py`, `is_valid_ipv4` / `is_valid_ipv6`) -/

/-- The loop body of `is_valid_ipv4`: `int(part)` must succeed with a
value in `[0,255]` and the token must not be zero-padded (a
`ValueError` from `int(part)` makes the source return `False`, which
coincides with the failing first arm here). -/
def ipv4PartOk (part : List Char) : Bool :=
  match pyIntDec part with
  | none => false
  | some num =>
    (decide (0 ≤ num) && decide (num ≤ 255)) &&
      !(part.head? = some '0' && decide (1 < part.length))

/-- `is_valid_ipv4` on the character list: split on `'.'`, require four
fields, and check each. -/
def is_valid_ipv4C (l : List Char) : Bool :=
  let parts := splitOnC '.' l
  if parts.length ≠ 4 then false
  else parts.all ipv4PartOk

/-- `is_valid_ipv4` (source lines 1778–1794). -/
def is_valid_ipv4 (ip : String) : Bool :=
  is_valid_ipv4C ip.toList

/-- The per-group check at the end of `is_valid_ipv6`: every non-empty
colon-separated part has at most 4 characters and parses under
`int(part, 16)`. -/
def ipv6PartsOk (l : List Char) : Bool :=
  (splitOnC ':' l).all fun part =>
    part.isEmpty || (decide (part.length ≤ 4) && pyIntHexOk part)

/-- `is_valid_ipv6` on the character list, following the source step by
step: reject `"::"`, `":::"`, any `":::"` substring, more than one
`"::"` occurrence; in the `"::"` branch strip one leading/trailing empty
field, count the non-empty fields `n`, set `double_colon_parts = 8 - n`
(Python ints, hence `Int` here) and reject when
`n + double_colon_parts > 8`; without `"::"` require exactly 8 fields;
finally check every non-empty field. -/
def is_valid_ipv6C (l : List Char) : Bool :=
  if l = [':', ':'] || l = [':', ':', ':'] then false
  else if hasTC l then false
  else if 1 < countDC l then false
  else if hasDC l then
    let parts0 := splitOnC ':' l
    let parts1 := if startsDC l then parts0.drop 1 else parts0
    let parts2 := if endsDC l then parts1.dropLast else parts1
    let n : Int := (parts2.filter (fun p => !p.isEmpty)).length
    let double_colon_parts : Int := 8 - n
    if n + double_colon_parts > 8 then false
    else ipv6PartsOk l
  else
    if (splitOnC ':' l).length ≠ 8 then false
    else ipv6PartsOk l

/-- `is_valid_ipv6` (source lines 1796–1845). -/
def is_valid_ipv6 (ip : String) : Bool :=
  is_valid_ipv6C ip.toList

/-! ## A backtracking regex engine for the two literal patterns

Python `re` returns the leftmost match, trying alternatives in written
order and matching bounded quantifiers greedily, backtracking on
failure.  The continuation-passing matcher below implements exactly
that search order; bounded repetitions are unfolded (all bounds in the
two source patterns are small constants). -/

/-- Regular expressions: empty word, single-character class,
concatenation, prioritized alternation, word boundary. -/
inductive RE where
  | eps : RE
  | cls : (Char → Bool) → RE
  | seqr : RE → RE → RE
  | alt : RE → RE → RE
  | wordB : RE

/-- Word character for `\b` (ASCII part of Python's word set). -/
def isWordC (c : Char) : Bool :=
  isDigitC c || ('a' ≤ c && c ≤ 'z') || ('A' ≤ c && c ≤ 'Z') || c = '_'

/-- Does a `\b` hold between the previous character and the head of the
remaining input?  Ends of the text count as non-word. -/
def atWordB (prev : Option Char) (s : List Char) : Bool :=
  (match prev with | none => false | some c => isWordC c) !=
    (match s.head? with | none => false | some c => isWordC c)

/-- The backtracking matcher: `reMatch r s prev k` tries to match `r` at
the start of `s` (with `prev` the character just before `s`, for `\b`)
and calls the continuation `k` on the rest; the first success in
Python's search order wins. -/
def reMatch : RE → List Char → Option Char →
    (List Char → Option Char → Option (List Char)) → Option (List Char)
  | .eps, s, prev, k => k s prev
  | .cls f, s, _, k =>
    match s with
    | [] => none
    | c :: t => if f c then k t (some c) else none
  | .seqr a b, s, prev, k => reMatch a s prev fun s' prev' => reMatch b s' prev' k
  | .alt a b, s, prev, k =>
    match reMatch a s prev k with
    | some r => some r
    | none => reMatch b s prev k

  | .wordB, s, prev, k => if atWordB prev s then k s prev else none

/-- Greedy `r?`. -/
def reOpt (r : RE) : RE :=
  .alt r .eps

/-- Greedy `r{0,n}`. -/
def reRepMax (r : RE) : Nat → RE
  | 0 => .eps
  | n + 1 => .alt (.seqr r (reRepMax r n)) .eps

/-- `r{n}`. -/
def reRepExact (r : RE) : Nat → RE
  | 0 => .eps
  | n + 1 => .seqr r (reRepExact r n)

/-- Greedy `r{lo,hi}`. -/
def reRep (r : RE) (lo hi : Nat) : RE :=
  .seqr (reRepExact r lo) (reRepMax r (hi - lo))

/-- Single literal character. -/
def chrC (c : Char) : RE :=
  .cls (· = c)

/-- The IPv4 octet group `25[0-5]|2[0-4][0-9]|[01]?[0-9][0-9]?`,
alternatives in written order. -/
def ipv4Group : RE :=
  .alt (.seqr (chrC '2') (.seqr (chrC '5') (.cls fun c => '0' ≤ c && c ≤ '5')))
    (.alt (.seqr (chrC '2') (.seqr (.cls fun c => '0' ≤ c && c ≤ '4') (.cls isDigitC)))
      (.seqr (reOpt (.cls fun c => c = '0' || c = '1'))
        (.seqr (.cls isDigitC) (reOpt (.cls isDigitC)))))

/-- The IPv4 pattern `\bG\.G\.G\.G\b` of `extract_ips_from_text`. -/
def ipv4RE : RE :=
  .seqr .wordB (.seqr ipv4Group (.seqr (chrC '.') (.seqr ipv4Group
    (.seqr (chrC '.') (.seqr ipv4Group (.seqr (chrC '.')
      (.seqr ipv4Group .wordB)))))))

/-- `[A-Fa-f0-9]{1,4}` (the `re.IGNORECASE` flag adds nothing: the class
already holds both cases). -/
def hexGroup : RE :=
  reRep (.cls isHexC) 1 4

/-- `(?:[A-Fa-f0-9]{1,4}:)`. -/
def hexGroupColon : RE :=
  .seqr hexGroup (chrC ':')

/-- The IPv6 pattern of `extract_ips_from_text`, its five alternatives
in written order:
`(?:h:){7}h | (?:h:){1,6}:(?:h:){0,5}h | h::(?:h:){0,5}h |
::(?:h:){0,6}h | (?:h:){1,7}:` with `h = [A-Fa-f0-9]{1,4}`. -/
def ipv6RE : RE :=
  .alt (.seqr (reRepExact hexGroupColon 7) hexGroup)
    (.alt (.seqr (reRep hexGroupColon 1 6)
        (.seqr (chrC ':') (.seqr (reRepMax hexGroupColon 5) hexGroup)))
      (.alt (.seqr hexGroup (.seqr (chrC ':') (.seqr (chrC ':')
          (.seqr (reRepMax hexGroupColon 5) hexGroup))))
        (.alt (.seqr (chrC ':') (.seqr (chrC ':')
            (.seqr (reRepMax hexGroupColon 6) hexGroup)))
          (.seqr (reRep hexGroupColon 1 7) (chrC ':')))))

/-- One scan step of `re.finditer`: at each position try the pattern;
on a match of positive length emit it and resume right after it, else
advance one character.  `fuel` bounds the recursion; `text.length + 1`
always suffices since every step consumes at least one character. -/
def findIterAux (re : RE) : Nat → List Char → Option Char → List (List Char)
  | 0, _, _ => []
  | fuel + 1, s, prev =>
    match reMatch re s prev (fun rest _ => some rest) with
    | some rest =>
      let len := s.length - rest.length
      if len = 0 then
        match s with
        | [] => []
        | c :: t => [] :: findIterAux re fuel t (some c)
      else
        let matched := s.take len
        matched :: findIterAux re fuel rest (matched.getLast?.orElse fun _ => prev)
    | none =>
      match s with
      | [] => []
      | c :: t => findIterAux re fuel t (some c)

/-- All matches of a pattern over a string, in scan order
(`re.finditer`). -/
def findMatches (re : RE) (s : String) : List String :=
  (findIterAux re (s.toList.length + 1) s.toList none).map String.mk

/-! ## `extract_ips_from_text` (source lines 1741–1776)

For each enabled family, run the family's pattern over the text and
keep the matches the validator accepts; all IPv4 results are appended
before any IPv6 result, exactly as in the source. -/

def extract_ips_from_text (enable_ipv4 enable_ipv6 : Bool) (text : String) :
    List (String × String) :=
  (if enable_ipv4 then
    ((findMatches ipv4RE text).filter is_valid_ipv4).map fun ip => (ip, "ipv4")
  else []) ++
  (if enable_ipv6 then
    ((findMatches ipv6RE text).filter is_valid_ipv6).map fun ip => (ip, "ipv6")
  else [])

/-! ## The clipboard polling tick (`check_clipboard`, lines 1700–1739)

The tick is modelled as a pure state transformer that also reports its
observable effects: the clipboard snapshots written through
`db_manager.add_clipboard_record`, the geolocation lookup threads
dispatched through `threading.Thread(target=query_ip_info, ...)`, and
the calls to `update_current_ip_display` (`none` encodes
`update_current_ip_display(None)`, which writes the "no address" label
and clears the detail text; it does not touch `current_ip`).  GUI-only
statements (tab refresh, log lines) have no modelled effect. -/

/-- The orchestrator state the tick reads and writes: `current_ip` is
`None` at startup (line 965), `last_clipboard_content` starts `""`
(line 966). -/
structure MonitorState where
  last_clipboard_content : String
  current_ip : Option String
deriving DecidableEq, Repr

/-- Observable effects of one tick. -/
structure TickEffects where
  snapshots : List (String × Bool)
  lookups : List (String × String)
  displays : List (Option String)
deriving DecidableEq, Repr

/-- A tick with no effects. -/
def noEffects : TickEffects :=
  ⟨[], [], []⟩

/-- One polling tick on the given clipboard content.  The source reads
`pyperclip.paste().strip()`; an empty or unchanged result is a no-op.
Otherwise it records a snapshot (`contains_ip` from a first extraction
call; the function is pure, so one call is modelled), advances
`last_clipboard_content`, extracts again, and walks the matches: the
first one differing from `current_ip` becomes the new `current_ip`, is
displayed and dispatched for lookup, and the walk `break`s; with no
matches at all the display is set to `None`. -/
def check_clipboard (enable_ipv4 enable_ipv6 : Bool) (st : MonitorState)
    (raw : String) : MonitorState × TickEffects :=
  let content := pyStrip raw
  if content = "" || content = st.last_clipboard_content then (st, noEffects)
  else
    let ips := extract_ips_from_text enable_ipv4 enable_ipv6 content
    let snaps := [(content, !ips.isEmpty)]
    let st1 : MonitorState := { st with last_clipboard_content := content }
    if ips.isEmpty then
      (st1, ⟨snaps, [], [none]⟩)
    else
      match ips.find? (fun p => !(st.current_ip == some p.1)) with
      | some (ip, fam) =>
        ({ st1 with current_ip := some ip }, ⟨snaps, [(ip, fam)], [some ip]⟩)
      | none => (st1, ⟨snaps, [], []⟩)

/-! ## The notification chain (`NotificationManager`, lines 798–935)

A backend attempt either returns `True`, returns `False`, or raises;
the `try/except` around `method_func(...)` in `show_notification`
absorbs the raise and moves on, so `raised` and `retFalse` both
continue the chain. -/

/-- Outcome of one backend attempt. -/
inductive AttemptOutcome where
  | retTrue : AttemptOutcome
  | retFalse : AttemptOutcome
  | raised : AttemptOutcome
deriving DecidableEq, Repr

/-- A registered backend: its name and its
`attempt(title, message, duration)` behaviour. -/
abbrev NotifyBackend : Type :=
  String × (String → String → Nat → AttemptOutcome)

/-- `show_notification` (lines 849–870): walk the registered backends in
order, stop at the first that returns `True`; report `False` when the
list is empty or exhausted.  Besides the result, the names of the
backends actually tried are reported, in order.  (The `last_ip` /
`last_ip_url` fields feed the toast click handler only and are not
modelled.) -/
def show_notification (methods : List NotifyBackend)
    (title message : String) (duration : Nat) : Bool × List String :=
  match methods with
  | [] => (false, [])
  | (name, attemptF) :: rest =>
    match attemptF title message duration with
    | .retTrue => (true, [name])
    | .retFalse =>
      let r := show_notification rest title message duration
      (r.1, name :: r.2)
    | .raised =>
      let r := show_notification rest title message duration
      (r.1, name :: r.2)

/-- The `custom` backend (`show_custom_notification`, lines 922–935):
it starts a daemon thread printing the message and returns `True`
(its `except` arm can only trigger on thread construction, which the
embedding takes to succeed). -/
def customBackend : NotifyBackend :=
  ("custom", fun _ _ _ => .retTrue)

/-- `init_notification_methods` (lines 811–847): `plyer` is always
appended (appending cannot raise); `win10toast` is appended when the
module is available and `ToastNotifier()` construction succeeds (one
flag here); `tray` when the parent carries a tray icon; `custom` is
always appended last.  The environment-dependent attempt behaviours are
parameters. -/
def init_notification_methods (win10toastOk hasTray : Bool)
    (plyerF win10toastF trayF : String → String → Nat → AttemptOutcome) :
    List NotifyBackend :=
  [("plyer", plyerF)] ++
    (if win10toastOk then [("win10toast", win10toastF)] else []) ++
    (if hasTray then [("tray", trayF)] else []) ++
    [customBackend]

/-! ## `check_interval` (`config.py` lines 76–106, `main.py` 647/774 and
1693–1698)

`load_config` copies every key of the JSON file verbatim onto the
config object (`setattr`), falling back to the default `2.0`; nothing
clamps the value.  The settings dialog edits the value through a spin
box with `setRange(0.5, 10.0)`, which confines dialog input to that
interval.  `start_clipboard_monitor` starts the timer with
`int(check_interval * 1000)` milliseconds.  Intervals are modelled as
rationals; `pyIntQ` is Python `int()` on a number, truncation toward
zero. -/

/-- The `check_interval` attribute after `load_config`: the file's value
when the key is present, else the default `2.0`. -/
def load_check_interval (fileVal : Option ℚ) : ℚ :=
  match fileVal with
  | some v => v
  | none => 2

/-- A value committed through the settings dialog spin box
(`setRange(0.5, 10.0)`). -/
def spin_box_value (v : ℚ) : ℚ :=
  max (1 / 2) (min 10 v)

/-- Python `int()` on a number: truncation toward zero. -/
def pyIntQ (q : ℚ) : Int :=
  if 0 ≤ q then ⌊q⌋ else ⌈q⌉

/-- The millisecond interval handed to `QTimer.start`. -/
def timer_interval_ms (check_interval : ℚ) : Int :=
  pyIntQ (check_interval * 1000)

/-! ## Helper lemmas on the string primitives -/

theorem splitOnC_ne_nil (sep : Char) (l : List Char) : splitOnC sep l ≠ [] := by
  cases l with
  | nil => simp [splitOnC]
  | cons c r =>
    simp only [splitOnC]
    rcases h : splitOnC sep r with _ | ⟨p, ps⟩
    · simp
    · by_cases hc : c = sep <;> simp [hc]

theorem splitOnC_sepFree (sep : Char) (l : List Char)
    (h : ∀ c ∈ l, c ≠ sep) : splitOnC sep l = [l] := by
  induction l with
  | nil => rfl
  | cons c r ih =>
    have hr : splitOnC sep r = [r] := ih fun x hx => h x (List.mem_cons_of_mem _ hx)
    simp [splitOnC, hr, h c (List.mem_cons_self _ _)]

theorem splitOnC_append (sep : Char) (g r : List Char)
    (h : ∀ c ∈ g, c ≠ sep) :
    splitOnC sep (g ++ sep :: r) = g :: splitOnC sep r := by
  induction g with
  | nil =>
    rcases hr : splitOnC sep r with _ | ⟨p, ps⟩
    · exact absurd hr (splitOnC_ne_nil sep r)
    · simp [splitOnC, hr]
  | cons c g' ih =>
    have hg' : splitOnC sep (g' ++ sep :: r) = g' :: splitOnC sep r :=
      ih fun x hx => h x (List.mem_cons_of_mem _ hx)
    simp [splitOnC, hg', h c (List.mem_cons_self _ _)]

theorem hasDC_cons_of_ne (c : Char) (l : List Char) (hc : c ≠ ':') :
    hasDC (c :: l) = hasDC l := by
  cases l with
  | nil => rfl
  | cons b t => simp [hasDC, hc]

theorem hasDC_colon_cons (l : List Char) (h : l.head? ≠ some ':') :
    hasDC (':' :: l) = hasDC l := by
  cases l with
  | nil => rfl
  | cons b t =>
    have hb : b ≠ ':' := fun e => h (by simp [e])
    simp [hasDC, hb]

theorem hasDC_append_sepFree (g r : List Char) (h : ∀ c ∈ g, c ≠ ':') :
    hasDC (g ++ r) = hasDC r := by
  induction g with
  | nil => rfl
  | cons c g' ih =>
    rw [List.cons_append, hasDC_cons_of_ne c _ (h c (List.mem_cons_self _ _))]
    exact ih fun x hx => h x (List.mem_cons_of_mem _ hx)

theorem hasDC_of_hasTC (l : List Char) (h : hasTC l = true) : hasDC l = true := by
  induction l with
  | nil => simp [hasTC] at h
  | cons a t ih =>
    cases t with
    | nil => simp [hasTC] at h
    | cons b t' =>
      cases t' with
      | nil => simp [hasTC] at h
      | cons c t'' =>
        simp only [hasTC, Bool.or_eq_true, Bool.and_eq_true, decide_eq_true_eq] at h
        rcases h with ⟨⟨ha, hb⟩, _⟩ | h
        · simp [hasDC, ha, hb]
        · have h2 := ih h
          simp only [hasDC, Bool.or_eq_true, Bool.and_eq_true, decide_eq_true_eq] at h2 ⊢
          exact Or.inr h2

theorem countDC_eq_zero_of_not_hasDC (l : List Char) (h : hasDC l = false) :
    countDC l = 0 := by
  induction l with
  | nil => rfl
  | cons a t ih =>
    cases t with
    | nil => rfl
    | cons b t' =>
      simp only [hasDC, Bool.or_eq_false_iff] at h
      simp [countDC, h.1, ih h.2]

/-! ## Joining groups with a separator, and its interaction with the
primitives -/

/-- The colon-joined full form `g1:g2:...:gn`. -/
def joinColon : List String → String
  | [] => ""
  | [g] => g
  | g :: g' :: gs => g ++ ":" ++ joinColon (g' :: gs)

theorem toList_joinColon_cons (g g' : String) (gs : List String) :
    (joinColon (g :: g' :: gs)).toList =
      g.toList ++ ':' :: (joinColon (g' :: gs)).toList := by
  show (g ++ ":" ++ joinColon (g' :: gs)).data = _
  rw [String.data_append, String.data_append]
  simp [String.toList]

theorem head?_toList_joinColon_cons (g : String) (gs : List String)
    (hg : g.toList ≠ []) :
    (joinColon (g :: gs)).toList.head? = g.toList.head? := by
  cases gs with
  | nil => rfl
  | cons g' gs' =>
    rw [toList_joinColon_cons]
    rcases hres : g.toList with _ | ⟨c, t⟩
    · exact absurd hres hg
    · rfl

theorem hasDC_joinColon (gs : List String)
    (h : ∀ g ∈ gs, g.toList ≠ [] ∧ ∀ c ∈ g.toList, c ≠ ':') :
    hasDC (joinColon gs).toList = false := by
  induction gs with
  | nil => rfl
  | cons g gs ih =>
    cases gs with
    | nil =>
      have hg := h g (List.mem_cons_self _ _)
      have : hasDC (g.toList ++ []) = hasDC ([] : List Char) :=
        hasDC_append_sepFree _ _ hg.2
      simpa [joinColon] using this
    | cons g' gs' =>
      have hg := h g (List.mem_cons_self _ _)
      have hg' := h g' (List.mem_cons_of_mem _ (List.mem_cons_self _ _))
      have hrest : hasDC (joinColon (g' :: gs')).toList = false :=
        ih fun x hx => h x (List.mem_cons_of_mem _ hx)
      rw [toList_joinColon_cons, hasDC_append_sepFree _ _ hg.2,
        hasDC_colon_cons, hrest]
      rw [head?_toList_joinColon_cons g' gs' hg'.1]
      rcases hres : g'.toList with _ | ⟨c, t⟩
      · exact absurd hres hg'.1
      · simp only [List.head?_cons, ne_eq, Option.some.injEq]
        exact hg'.2 c (by rw [hres]; exact List.mem_cons_self _ _)

theorem splitOnC_joinColon (gs : List String)
    (h : ∀ g ∈ gs, ∀ c ∈ g.toList, c ≠ ':') (hne : gs ≠ []) :
    splitOnC ':' (joinColon gs).toList = gs.map String.toList := by
  induction gs with
  | nil => exact absurd rfl hne
  | cons g gs ih =>
    cases gs with
    | nil =>
      simpa [joinColon] using
        splitOnC_sepFree ':' g.toList (h g (List.mem_cons_self _ _))
    | cons g' gs' =>
      rw [toList_joinColon_cons,
        splitOnC_append ':' _ _ (h g (List.mem_cons_self _ _)),
        ih (fun x hx => h x (List.mem_cons_of_mem _ hx)) (by simp)]
      rfl

/-! ## Characters and the `int()` model -/

theorem ne_of_isHexC {c d : Char} (h : isHexC c = true) (hd : isHexC d = false) :
    c ≠ d := by
  intro e
  rw [e, hd] at h
  exact Bool.false_ne_true h

theorem ne_of_isDigitC {c d : Char} (h : isDigitC c = true) (hd : isDigitC d = false) :
    c ≠ d := by
  intro e
  rw [e, hd] at h
  exact Bool.false_ne_true h

theorem isWsC_of_isHexC {c : Char} (h : isHexC c = true) : isWsC c = false := by
  have h1 := ne_of_isHexC h (d := ' ') (by decide)
  have h2 := ne_of_isHexC h (d := '\t') (by decide)
  have h3 := ne_of_isHexC h (d := '\n') (by decide)
  have h4 := ne_of_isHexC h (d := '\r') (by decide)
  have h5 := ne_of_isHexC h (d := '\x0b') (by decide)
  have h6 := ne_of_isHexC h (d := '\x0c') (by decide)
  simp [isWsC, h1, h2, h3, h4, h5, h6]

theorem isHexC_of_isDigitC {c : Char} (h : isDigitC c = true) : isHexC c = true := by
  unfold isHexC
  rw [h]
  rfl

theorem dropWhile_eq_self_of (p : Char → Bool) (l : List Char)
    (h : ∀ c ∈ l, p c = false) : List.dropWhile p l = l := by
  cases l with
  | nil => rfl
  | cons c t => simp [List.dropWhile_cons, h c (List.mem_cons_self _ _)]

theorem stripWs_eq_self (l : List Char) (h : ∀ c ∈ l, isWsC c = false) :
    stripWs l = l := by
  unfold stripWs
  rw [dropWhile_eq_self_of _ _ h,
    dropWhile_eq_self_of _ _ (fun c hc => h c (List.mem_reverse.mp hc)),
    List.reverse_reverse]

theorem dropSign_eq_self (l : List Char)
    (h : l.head? ≠ some '+' ∧ l.head? ≠ some '-') : dropSign l = l := by
  unfold dropSign
  rw [if_neg]
  rintro (h1 | h2)
  · exact h.1 h1
  · exact h.2 h2

theorem digitsTail_of_all (isD : Char → Bool) (hD : isD '_' = false)
    (l : List Char) (h : ∀ c ∈ l, isD c = true) : digitsTail isD l = true := by
  induction l with
  | nil => rfl
  | cons c r ih =>
    have hc := h c (List.mem_cons_self _ _)
    have hcu : c ≠ '_' := by
      intro e
      rw [e, hD] at hc
      exact Bool.false_ne_true hc
    rw [digitsTail.eq_def]
    simp only [if_neg hcu, hc, Bool.true_and]
    exact ih fun x hx => h x (List.mem_cons_of_mem _ hx)

theorem digitsOk_of_all (isD : Char → Bool) (hD : isD '_' = false)
    (l : List Char) (hne : l ≠ []) (h : ∀ c ∈ l, isD c = true) :
    digitsOk isD l = true := by
  cases l with
  | nil => exact absurd rfl hne
  | cons c r =>
    simp only [digitsOk, h c (List.mem_cons_self _ _), Bool.true_and]
    exact digitsTail_of_all isD hD r fun x hx => h x (List.mem_cons_of_mem _ hx)

theorem pyIntHexOk_of_hex (l : List Char) (hne : l ≠ [])
    (h : ∀ c ∈ l, isHexC c = true) : pyIntHexOk l = true := by
  unfold pyIntHexOk
  rw [stripWs_eq_self l fun c hc => isWsC_of_isHexC (h c hc)]
  have hhead : ∀ d, l.head? = some d → isHexC d = true := by
    intro d hd
    exact h d (by
      rcases l with _ | ⟨c, t⟩
      · simp at hd
      · simp only [List.head?_cons, Option.some.injEq] at hd
        rw [← hd]
        exact List.mem_cons_self _ _)
  rw [dropSign_eq_self l ⟨fun e => absurd (hhead '+' e) (by decide),
    fun e => absurd (hhead '-' e) (by decide)⟩]
  unfold hexBody
  rw [if_neg]
  · exact digitsOk_of_all isHexC (by decide) l hne h
  · rintro ⟨h0, hx | hX⟩
    · have : 'x' ∈ l := by
        rcases l with _ | ⟨c, t⟩
        · simp at h0
        · simp only [List.tail_cons] at hx
          exact List.mem_cons_of_mem _ (List.mem_of_mem_head? hx)
      have := h 'x' this
      exact Bool.false_ne_true ((by decide : isHexC 'x' = false) ▸ this)
    · have : 'X' ∈ l := by
        rcases l with _ | ⟨c, t⟩
        · simp at h0
        · simp only [List.tail_cons] at hX
          exact List.mem_cons_of_mem _ (List.mem_of_mem_head? hX)
      have := h 'X' this
      exact Bool.false_ne_true ((by decide : isHexC 'X' = false) ▸ this)

theorem pyIntDec_of_digits (l : List Char) (hne : l ≠ [])
    (h : ∀ c ∈ l, isDigitC c = true) : pyIntDec l = some (decValue l) := by
  unfold pyIntDec
  have hws : stripWs l = l :=
    stripWs_eq_self l fun c hc => isWsC_of_isHexC (isHexC_of_isDigitC (h c hc))
  have hhead : ∀ d, l.head? = some d → isDigitC d = true := by
    intro d hd
    exact h d (by
      rcases l with _ | ⟨c, t⟩
      · simp at hd
      · simp only [List.head?_cons, Option.some.injEq] at hd
        rw [← hd]
        exact List.mem_cons_self _ _)
  have hsign : dropSign l = l :=
    dropSign_eq_self l ⟨fun e => absurd (hhead '+' e) (by decide),
      fun e => absurd (hhead '-' e) (by decide)⟩
  have hneg : ¬(l.head? = some '-') := fun e => absurd (hhead '-' e) (by decide)
  simp only [hws, hsign, if_neg hneg,
    digitsOk_of_all isDigitC (by decide) l hne h, if_pos, one_mul]
  rfl

/-! ## Claim C1 -/

/-- C1: the claim reads the compressed-form check as "the compression
must represent at least one elided group and the total must not
overflow 8 groups".  The source computes `double_colon_parts = 8 - n`
over the stripped fields and rejects when `n + double_colon_parts > 8`,
i.e. when `n + (8 - n) > 8` — which never holds.  Hence
`"1:2:3:4:5:6:7::9"`, whose compression elides zero groups (8 non-empty
fields plus at least one for `"::"`), is accepted by the code although
the claim requires its rejection.  The claim's positive example
`"2001:db8::1"` is accepted, as stated. -/
theorem ipv6_overflow_check_vacuous :
    is_valid_ipv6 "1:2:3:4:5:6:7::9" = true ∧
      is_valid_ipv6 "2001:db8::1" = true := by
  decide

/-! ## Claim C6 -/

/-- C6: the IPv6 validator rejects the bare `"::"`, `":::"`, and any
string whose (non-overlapping, as `str.count` counts) `"::"` occurrence
count is at least two; a candidate without `"::"` is accepted only if it
splits into exactly 8 colon-separated fields — in particular
`"1:2:3:4:5:6:7:8:9"` is rejected; and every full-form join of 8 groups
of 1–4 hexadecimal digits is accepted. -/
theorem ipv6_reject_rules_and_fullform :
    is_valid_ipv6 "::" = false
    ∧ is_valid_ipv6 ":::" = false
    ∧ (∀ ip : String, 2 ≤ countDC ip.toList → is_valid_ipv6 ip = false)
    ∧ (∀ ip : String, hasDC ip.toList = false → is_valid_ipv6 ip = true →
        (splitOnC ':' ip.toList).length = 8)
    ∧ is_valid_ipv6 "1:2:3:4:5:6:7:8:9" = false
    ∧ (∀ gs : List String, gs.length = 8 →
        (∀ g ∈ gs, g.toList ≠ [] ∧ g.toList.length ≤ 4 ∧
          ∀ c ∈ g.toList, isHexC c = true) →
        is_valid_ipv6 (joinColon gs) = true) := by
  refine ⟨by decide, by decide, ?_, ?_, by decide, ?_⟩
  · intro ip h
    simp only [is_valid_ipv6, is_valid_ipv6C]
    split
    · rfl
    split
    · rfl
    split
    · rfl
    next h3 =>
      exfalso
      simp only [decide_eq_false_iff_not, not_lt] at h3
      omega
  · intro ip hdc hv
    simp only [is_valid_ipv6, is_valid_ipv6C] at hv
    split at hv
    · exact absurd hv (by simp)
    split at hv
    · exact absurd hv (by simp)
    split at hv
    · exact absurd hv (by simp)
    rw [hdc] at hv
    simp only [Bool.false_eq_true, if_false] at hv
    split at hv
    · exact absurd hv (by simp)
    next h8 =>
      simpa using h8
  · intro gs hlen hg
    have hgsne : gs ≠ [] := by
      intro e
      rw [e] at hlen
      simp at hlen
    have hcf : ∀ g ∈ gs, ∀ c ∈ g.toList, c ≠ ':' :=
      fun g hgm c hc => ne_of_isHexC ((hg g hgm).2.2 c hc) (by decide)
    have hnn : ∀ g ∈ gs, g.toList ≠ [] := fun g hgm => (hg g hgm).1
    have hdc : hasDC (joinColon gs).toList = false :=
      hasDC_joinColon gs fun g hgm => ⟨hnn g hgm, hcf g hgm⟩
    have htc : hasTC (joinColon gs).toList = false := by
      cases ht : hasTC (joinColon gs).toList with
      | false => rfl
      | true =>
        rw [hasDC_of_hasTC _ ht] at hdc
        exact absurd hdc (by simp)
    have hcount : countDC (joinColon gs).toList = 0 :=
      countDC_eq_zero_of_not_hasDC _ hdc
    have hne2 : (joinColon gs).toList ≠ [':', ':'] := by
      intro e
      rw [e] at hdc
      exact absurd hdc (by decide)
    have hne3 : (joinColon gs).toList ≠ [':', ':', ':'] := by
      intro e
      rw [e] at hdc
      exact absurd hdc (by decide)
    have hsplit : splitOnC ':' (joinColon gs).toList = gs.map String.toList :=
      splitOnC_joinColon gs hcf hgsne
    have hlen8 : (splitOnC ':' (joinColon gs).toList).length = 8 := by
      rw [hsplit, List.length_map, hlen]
    have hparts : ipv6PartsOk (joinColon gs).toList = true := by
      unfold ipv6PartsOk
      rw [hsplit]
      refine List.all_eq_true.mpr ?_
      intro part hp
      rcases List.mem_map.mp hp with ⟨g, hgm, rfl⟩
      have hlt : decide (g.toList.length ≤ 4) = true :=
        decide_eq_true (hg g hgm).2.1
      have hok : pyIntHexOk g.toList = true :=
        pyIntHexOk_of_hex _ (hg g hgm).1 (hg g hgm).2.2
      show (g.toList.isEmpty ||
        (decide (g.toList.length ≤ 4) && pyIntHexOk g.toList)) = true
      rw [hlt, hok]
      simp
    show is_valid_ipv6C (joinColon gs).toList = true
    unfold is_valid_ipv6C
    rw [if_neg, if_neg (show ¬hasTC (joinColon gs).toList = true by rw [htc]; simp),
      if_neg (show ¬(1 < countDC (joinColon gs).toList) by rw [hcount]; omega),
      if_neg (show ¬hasDC (joinColon gs).toList = true by rw [hdc]; simp),
      if_neg (show ¬(splitOnC ':' (joinColon gs).toList).length ≠ 8 by rw [hlen8]; simp)]
    · exact hparts
    · intro hcond
      rcases Bool.or_eq_true _ _ |>.mp hcond with hcond | hcond
      · exact hne2 (by simpa using hcond)
      · exact hne3 (by simpa using hcond)

/-! ## Claim C7 -/

/-- C7: on four non-empty all-digit octet tokens joined by dots,
`is_valid_ipv4` accepts exactly when every token's value is at most 255
and no token is zero-padded (a leading `'0'` with more than one digit);
so canonical octets in `[0,255]` are accepted, and a token over 255 or a
token like `"01"` is rejected. -/
theorem ipv4_octet_characterization (t1 t2 t3 t4 : List Char)
    (h1 : t1 ≠ [] ∧ ∀ c ∈ t1, isDigitC c = true)
    (h2 : t2 ≠ [] ∧ ∀ c ∈ t2, isDigitC c = true)
    (h3 : t3 ≠ [] ∧ ∀ c ∈ t3, isDigitC c = true)
    (h4 : t4 ≠ [] ∧ ∀ c ∈ t4, isDigitC c = true) :
    is_valid_ipv4 (String.mk (t1 ++ '.' :: (t2 ++ '.' :: (t3 ++ '.' :: t4)))) = true
    ↔ ((decValue t1 ≤ 255 ∧ ¬(t1.head? = some '0' ∧ 1 < t1.length))
      ∧ (decValue t2 ≤ 255 ∧ ¬(t2.head? = some '0' ∧ 1 < t2.length))
      ∧ (decValue t3 ≤ 255 ∧ ¬(t3.head? = some '0' ∧ 1 < t3.length))
      ∧ (decValue t4 ≤ 255 ∧ ¬(t4.head? = some '0' ∧ 1 < t4.length))) := by
  have hdot : ∀ (t : List Char), (∀ c ∈ t, isDigitC c = true) → ∀ c ∈ t, c ≠ '.' :=
    fun t ht c hc => ne_of_isDigitC (ht c hc) (by decide)
  have hsplit : splitOnC '.' (t1 ++ '.' :: (t2 ++ '.' :: (t3 ++ '.' :: t4))) =
      [t1, t2, t3, t4] := by
    rw [splitOnC_append '.' t1 _ (hdot t1 h1.2),
      splitOnC_append '.' t2 _ (hdot t2 h2.2),
      splitOnC_append '.' t3 _ (hdot t3 h3.2),
      splitOnC_sepFree '.' t4 (hdot t4 h4.2)]
  have hone : ∀ (t : List Char), t ≠ [] → (∀ c ∈ t, isDigitC c = true) →
      (ipv4PartOk t = true ↔
        (decValue t ≤ 255 ∧ ¬(t.head? = some '0' ∧ 1 < t.length))) := by
    intro t htne htd
    unfold ipv4PartOk
    rw [pyIntDec_of_digits t htne htd]
    show ((decide (0 ≤ ((decValue t : Nat) : Int)) &&
        decide (((decValue t : Nat) : Int) ≤ 255)) &&
        !(decide (t.head? = some '0') && decide (1 < t.length))) = true ↔ _
    simp only [Bool.and_eq_true, decide_eq_true_eq, Bool.not_eq_true',
      Bool.and_eq_false_iff, decide_eq_false_iff_not]
    constructor
    · rintro ⟨⟨_, hle⟩, hz⟩
      refine ⟨by exact_mod_cast hle, ?_⟩
      rcases hz with hz | hz
      · exact fun hc => hz hc.1
      · exact fun hc => hz hc.2
    · rintro ⟨hle, hz⟩
      refine ⟨⟨Int.natCast_nonneg _, by exact_mod_cast hle⟩, ?_⟩
      by_cases hA : t.head? = some '0'
      · exact Or.inr fun hB => hz ⟨hA, hB⟩
      · exact Or.inl hA
  show is_valid_ipv4C (t1 ++ '.' :: (t2 ++ '.' :: (t3 ++ '.' :: t4))) = true ↔ _
  unfold is_valid_ipv4C
  rw [hsplit, if_neg (show ¬([t1, t2, t3, t4].length ≠ 4) by simp)]
  simp only [List.all_cons, List.all_nil, Bool.and_true, Bool.and_eq_true]
  rw [hone t1 h1.1 h1.2, hone t2 h2.1 h2.2, hone t3 h3.1 h3.2, hone t4 h4.1 h4.2]

/-! ## Helper lemmas on the polling tick -/

/-- A tick whose stripped buffer equals `last_clipboard_content` is a
no-op. -/
theorem check_clipboard_nochange (e4 e6 : Bool) (st : MonitorState) (raw : String)
    (h : pyStrip raw = st.last_clipboard_content) :
    check_clipboard e4 e6 st raw = (st, noEffects) := by
  have hcond : (pyStrip raw = "" || pyStrip raw = st.last_clipboard_content) = true := by
    simp [h]
  simp only [check_clipboard, hcond, if_true]

/-- A tick on fresh non-empty content advances `last_clipboard_content`
to the stripped buffer, writes exactly one snapshot, and dispatches at
most one lookup. -/
theorem check_clipboard_fresh_parts (e4 e6 : Bool) (st : MonitorState) (raw : String)
    (hfresh : ¬(pyStrip raw = "" ∨ pyStrip raw = st.last_clipboard_content)) :
    (check_clipboard e4 e6 st raw).1.last_clipboard_content = pyStrip raw
    ∧ (check_clipboard e4 e6 st raw).2.snapshots.length = 1
    ∧ (check_clipboard e4 e6 st raw).2.lookups.length ≤ 1 := by
  rcases not_or.mp hfresh with ⟨ha, hb⟩
  have hcond : (pyStrip raw = "" || pyStrip raw = st.last_clipboard_content) = false := by
    simp [ha, hb]
  simp only [check_clipboard, hcond, Bool.false_eq_true, if_false]
  split
  · exact ⟨rfl, rfl, by simp⟩
  · split
    · exact ⟨rfl, rfl, by simp⟩
    · exact ⟨rfl, rfl, by simp⟩

/-! ## Claim C2 -/

/-- C2: counterexample to cross-family left-to-right ordering.  In
`"fe80::1 1.2.3.4"` the IPv6 literal occupies the first 7 characters,
before the IPv4 literal, yet the matcher returns the IPv4 pair first:
the source appends all IPv4 matches before any IPv6 match. -/
theorem extract_order_not_interleaved :
    extract_ips_from_text true true "fe80::1 1.2.3.4" =
      [("1.2.3.4", "ipv4"), ("fe80::1", "ipv6")]
    ∧ "fe80::1 1.2.3.4".toList.take 7 = "fe80::1".toList := by
  decide

/-- C2 (amended): the matcher returns its IPv4 block (scan order)
followed by its IPv6 block (scan order); a pair of a disabled family
never appears, and with both filters disabled the result is empty. -/
theorem extract_family_blocks_and_filters (e4 e6 : Bool) (t : String) :
    (∀ p ∈ extract_ips_from_text e4 e6 t,
      (p.2 = "ipv4" → e4 = true) ∧ (p.2 = "ipv6" → e6 = true))
    ∧ extract_ips_from_text e4 e6 t =
        extract_ips_from_text e4 false t ++ extract_ips_from_text false e6 t
    ∧ extract_ips_from_text false false t = [] := by
  refine ⟨?_, ?_, rfl⟩
  · intro p hp
    unfold extract_ips_from_text at hp
    rcases List.mem_append.mp hp with hp | hp
    · cases e4 with
      | false => simp at hp
      | true =>
        simp only [if_true] at hp
        rcases List.mem_map.mp hp with ⟨ip, _, rfl⟩
        exact ⟨fun _ => rfl,
          fun hbad => absurd hbad (show ¬("ipv4" : String) = "ipv6" by decide)⟩
    · cases e6 with
      | false => simp at hp
      | true =>
        simp only [if_true] at hp
        rcases List.mem_map.mp hp with ⟨ip, _, rfl⟩
        exact ⟨fun hbad => absurd hbad (show ¬("ipv6" : String) = "ipv4" by decide),
          fun _ => rfl⟩
  · unfold extract_ips_from_text
    cases e4 <;> cases e6 <;> simp

/-- C2 witness: a concrete application of the amended theorem. -/
theorem extract_family_blocks_witness :
    ("1.2.3.4", "ipv4") ∈ extract_ips_from_text true false "1.2.3.4"
    ∧ (("1.2.3.4", "ipv4").2 = "ipv4" → true = true)
    ∧ (("1.2.3.4", "ipv4").2 = "ipv6" → false = true) := by
  have hm : ("1.2.3.4", "ipv4") ∈ extract_ips_from_text true false "1.2.3.4" := by
    decide
  have h := (extract_family_blocks_and_filters true false "1.2.3.4").1 _ hm
  exact ⟨hm, h.1, h.2⟩

/-! ## Claim C3 -/

/-- C3: counterexample.  With `current_ip = "1.2.3.4"` and buffer
`"1.2.3.4 5.6.7.8"`, the first match `"1.2.3.4"` equals the tracked
address, so the loop moves on and dispatches a lookup for the
subsequent match `"5.6.7.8"` — which the claim says is ignored for this
cycle and never looked up. -/
theorem tick_looks_up_subsequent_match :
    check_clipboard true true ⟨"", some "1.2.3.4"⟩ "1.2.3.4 5.6.7.8" =
      (⟨"1.2.3.4 5.6.7.8", some "5.6.7.8"⟩,
       ⟨[("1.2.3.4 5.6.7.8", true)], [("5.6.7.8", "ipv4")], [some "5.6.7.8"]⟩)
    ∧ extract_ips_from_text true true "1.2.3.4 5.6.7.8" =
      [("1.2.3.4", "ipv4"), ("5.6.7.8", "ipv4")] := by
  decide

/-- C3 (amended): on a fresh buffer, the winning match is the *first
match differing from `current_ip`* (matches equal to the tracked
address are skipped); the tick re-tracks it, displays it and dispatches
exactly one lookup, for it alone — every match after the winner is
ignored.  In particular, a first match that differs from the tracked
address wins. -/
theorem tick_first_differing_match_wins (e4 e6 : Bool) (st : MonitorState)
    (raw ip fam : String)
    (hfresh : ¬(pyStrip raw = "" ∨ pyStrip raw = st.last_clipboard_content))
    (hfind : (extract_ips_from_text e4 e6 (pyStrip raw)).find?
        (fun p => !(st.current_ip == some p.1)) = some (ip, fam)) :
    check_clipboard e4 e6 st raw =
      ({ last_clipboard_content := pyStrip raw, current_ip := some ip },
       ⟨[(pyStrip raw, true)], [(ip, fam)], [some ip]⟩) := by
  rcases not_or.mp hfresh with ⟨ha, hb⟩
  have hcond : (pyStrip raw = "" || pyStrip raw = st.last_clipboard_content) = false := by
    simp [ha, hb]
  have hne : (extract_ips_from_text e4 e6 (pyStrip raw)).isEmpty = false := by
    rcases hl : extract_ips_from_text e4 e6 (pyStrip raw) with _ | ⟨x, xs⟩
    · rw [hl] at hfind
      simp [List.find?] at hfind
    · simp
  simp only [check_clipboard, hcond, Bool.false_eq_true, if_false, hne, hfind]
  rfl

/-- C3 witness. -/
theorem tick_first_differing_match_wins_witness :
    check_clipboard true true ⟨"", none⟩ "1.2.3.4" =
      (⟨"1.2.3.4", some "1.2.3.4"⟩,
       ⟨[("1.2.3.4", true)], [("1.2.3.4", "ipv4")], [some "1.2.3.4"]⟩) :=
  tick_first_differing_match_wins true true ⟨"", none⟩ "1.2.3.4" "1.2.3.4" "ipv4"
    (by decide) (by decide)

/-! ## Claim C4 -/

/-- C4: counterexample.  With `current_ip = "1.2.3.4"` and a fresh
buffer `"hello"` yielding no match, the tick clears the displayed
detail state (`update_current_ip_display(None)`) but leaves
`current_ip` at `"1.2.3.4"` — the claim says the tracked address is
cleared too, which the code never does. -/
theorem no_address_tick_keeps_tracked :
    check_clipboard true true ⟨"", some "1.2.3.4"⟩ "hello" =
      (⟨"hello", some "1.2.3.4"⟩, ⟨[("hello", false)], [], [none]⟩)
    ∧ extract_ips_from_text true true "hello" = []
    ∧ (check_clipboard true true ⟨"", some "1.2.3.4"⟩ "hello").1.current_ip ≠ none := by
  decide

/-- C4 (amended): on a fresh buffer with no address match, the tick
clears the displayed detail state (a `none` display update) and
dispatches no lookup, but `current_ip` keeps its previous value. -/
theorem no_address_tick_clears_display_only (e4 e6 : Bool) (st : MonitorState)
    (raw : String)
    (hfresh : ¬(pyStrip raw = "" ∨ pyStrip raw = st.last_clipboard_content))
    (hempty : extract_ips_from_text e4 e6 (pyStrip raw) = []) :
    check_clipboard e4 e6 st raw =
      ({ last_clipboard_content := pyStrip raw, current_ip := st.current_ip },
       ⟨[(pyStrip raw, false)], [], [none]⟩) := by
  rcases not_or.mp hfresh with ⟨ha, hb⟩
  have hcond : (pyStrip raw = "" || pyStrip raw = st.last_clipboard_content) = false := by
    simp [ha, hb]
  simp only [check_clipboard, hcond, Bool.false_eq_true, if_false, hempty]
  rfl

/-- C4 witness. -/
theorem no_address_tick_clears_display_only_witness :
    check_clipboard true true ⟨"", some "1.2.3.4"⟩ "hello" =
      (⟨"hello", some "1.2.3.4"⟩, ⟨[("hello", false)], [], [none]⟩) :=
  no_address_tick_clears_display_only true true ⟨"", some "1.2.3.4"⟩ "hello"
    (by decide) (by decide)

/-! ## Claim C5 -/

/-- C5: a tick whose stripped buffer equals `last_seen_text` is a
no-op; and for a fresh non-empty buffer, the tick writes exactly one
snapshot and dispatches at most one lookup, while a second tick on the
same buffer changes nothing and has no effects — so the same address
seen on two consecutive ticks triggers at most one lookup (and hence
one notification), not two. -/
theorem tick_idempotent_dedup (e4 e6 : Bool) (st : MonitorState) (raw : String) :
    (pyStrip raw = st.last_clipboard_content →
      check_clipboard e4 e6 st raw = (st, noEffects))
    ∧ (¬(pyStrip raw = "" ∨ pyStrip raw = st.last_clipboard_content) →
        (check_clipboard e4 e6 st raw).2.snapshots.length = 1
        ∧ (check_clipboard e4 e6 st raw).2.lookups.length ≤ 1
        ∧ check_clipboard e4 e6 (check_clipboard e4 e6 st raw).1 raw =
            ((check_clipboard e4 e6 st raw).1, noEffects)) := by
  constructor
  · exact check_clipboard_nochange e4 e6 st raw
  · intro hfresh
    have hp := check_clipboard_fresh_parts e4 e6 st raw hfresh
    exact ⟨hp.2.1, hp.2.2,
      check_clipboard_nochange e4 e6 _ raw hp.1.symm⟩

/-- C5 witness. -/
theorem tick_idempotent_dedup_witness :
    (check_clipboard true true ⟨"", none⟩ "1.2.3.4").2.snapshots.length = 1
    ∧ (check_clipboard true true ⟨"", none⟩ "1.2.3.4").2.lookups.length ≤ 1
    ∧ check_clipboard true true (check_clipboard true true ⟨"", none⟩ "1.2.3.4").1 "1.2.3.4" =
        ((check_clipboard true true ⟨"", none⟩ "1.2.3.4").1, noEffects) :=
  (tick_idempotent_dedup true true ⟨"", none⟩ "1.2.3.4").2 (by decide)

/-! ## Claim C8 -/

/-- Does this backend's attempt report success on the given call? -/
def attemptSucceeds (title message : String) (duration : Nat)
    (b : NotifyBackend) : Bool :=
  b.2 title message duration == AttemptOutcome.retTrue

/-- Index of the first element satisfying the predicate. -/
def firstIdxTrue {α : Type} (p : α → Bool) : List α → Option Nat
  | [] => none
  | x :: xs => if p x then some 0 else (firstIdxTrue p xs).map (· + 1)

/-- C8: backends are tried strictly in registration order; the first
whose attempt reports success stops the chain (exactly the backends up
to and including it are attempted, in order) and the call reports
success; when every backend fails — by returning `False` or by raising,
which the chain absorbs — all are attempted in order and the call
reports failure without raising (the model is a total function). -/
theorem notify_chain_order_and_fallback (ms : List NotifyBackend)
    (title message : String) (duration : Nat) :
    (∀ i, firstIdxTrue (attemptSucceeds title message duration) ms = some i →
      show_notification ms title message duration =
        (true, (ms.take (i + 1)).map Prod.fst))
    ∧ (firstIdxTrue (attemptSucceeds title message duration) ms = none →
      show_notification ms title message duration = (false, ms.map Prod.fst)) := by
  induction ms with
  | nil =>
    constructor
    · intro i hi
      simp [firstIdxTrue] at hi
    · intro _
      rfl
  | cons b rest ih =>
    obtain ⟨name, f⟩ := b
    constructor
    · intro i hi
      cases hf : f title message duration with
      | retTrue =>
        have h0 : firstIdxTrue (attemptSucceeds title message duration)
            ((name, f) :: rest) = some 0 := by
          simp [firstIdxTrue, attemptSucceeds, hf]
        rw [h0] at hi
        obtain rfl : (0 : Nat) = i := by simpa using hi
        simp [show_notification, hf]
      | retFalse =>
        have hp : attemptSucceeds title message duration (name, f) = false := by
          simp [attemptSucceeds, hf]
        simp only [firstIdxTrue, hp, Bool.false_eq_true, if_false,
          Option.map_eq_some'] at hi
        rcases hi with ⟨j, hj, rfl⟩
        have hs := ih.1 j hj
        simp [show_notification, hf, hs, List.take_succ_cons]
      | raised =>
        have hp : attemptSucceeds title message duration (name, f) = false := by
          simp [attemptSucceeds, hf]
        simp only [firstIdxTrue, hp, Bool.false_eq_true, if_false,
          Option.map_eq_some'] at hi
        rcases hi with ⟨j, hj, rfl⟩
        have hs := ih.1 j hj
        simp [show_notification, hf, hs, List.take_succ_cons]
    · intro hn
      cases hf : f title message duration with
      | retTrue =>
        simp [firstIdxTrue, attemptSucceeds, hf] at hn
      | retFalse =>
        have hp : attemptSucceeds title message duration (name, f) = false := by
          simp [attemptSucceeds, hf]
        simp only [firstIdxTrue, hp, Bool.false_eq_true, if_false,
          Option.map_eq_none'] at hn
        have hs := ih.2 hn
        simp [show_notification, hf, hs]
      | raised =>
        have hp : attemptSucceeds title message duration (name, f) = false := by
          simp [attemptSucceeds, hf]
        simp only [firstIdxTrue, hp, Bool.false_eq_true, if_false,
          Option.map_eq_none'] at hn
        have hs := ih.2 hn
        simp [show_notification, hf, hs]

/-- C8 witness: first two backends fail, the third succeeds — `notify`
reports success after exactly three attempts, in registration order. -/
theorem notify_chain_witness :
    show_notification
      [("first", fun _ _ _ => AttemptOutcome.retFalse),
       ("second", fun _ _ _ => AttemptOutcome.raised),
       ("third", fun _ _ _ => AttemptOutcome.retTrue)] "Title" "Body" 10 =
      (true, ["first", "second", "third"]) :=
  (notify_chain_order_and_fallback
    [("first", fun _ _ _ => AttemptOutcome.retFalse),
     ("second", fun _ _ _ => AttemptOutcome.raised),
     ("third", fun _ _ _ => AttemptOutcome.retTrue)] "Title" "Body" 10).1 2
    (by decide)

/-! ## Claim C10 -/

/-- A chain ending in the `custom` backend always reports success. -/
theorem show_notification_with_custom_last (ms : List NotifyBackend)
    (t m : String) (d : Nat) :
    (show_notification (ms ++ [customBackend]) t m d).1 = true := by
  induction ms with
  | nil => rfl
  | cons b rest ih =>
    obtain ⟨name, f⟩ := b
    cases hf : f t m d <;> simp [show_notification, hf, ih]

/-- C10: whatever the environment (win10toast availability, tray
presence, behaviour of the optional backends),
`init_notification_methods` registers the always-succeeding `custom`
backend last, so the backend list is never empty, the
all-backends-failed branch is unreachable, and every
`show_notification` call returns `True`. -/
theorem init_chain_never_fails_totally (w10 tray : Bool)
    (plyerF w10F trayF : String → String → Nat → AttemptOutcome)
    (t m : String) (d : Nat) :
    init_notification_methods w10 tray plyerF w10F trayF ≠ []
    ∧ (show_notification (init_notification_methods w10 tray plyerF w10F trayF)
        t m d).1 = true := by
  constructor
  · unfold init_notification_methods
    simp
  · exact show_notification_with_custom_last _ t m d

/-! ## Claim C9 -/

/-- C9: counterexample.  `load_config` copies a file-provided
`check_interval` verbatim; with `0.1` in the file the timer is started
with `int(0.1 * 1000) = 100` milliseconds — below the 0.5 s the claim
promises as a lower bound for every configured value. -/
theorem check_interval_file_value_not_clamped :
    timer_interval_ms (load_check_interval (some (1 / 10))) = 100
    ∧ ¬(500 ≤ timer_interval_ms (load_check_interval (some (1 / 10)))) := by
  have h : timer_interval_ms (load_check_interval (some (1 / 10))) = 100 := by
    unfold timer_interval_ms load_check_interval pyIntQ
    norm_num
  exact ⟨h, by rw [h]; omega⟩

/-- C9 (amended): the value loaded from the config file is used as-is,
unclamped; only a value committed through the settings dialog's spin
box is confined to `[0.5, 10.0]` seconds, which makes the timer
interval computed from it lie in `[500, 10000]` milliseconds. -/
theorem check_interval_clamped_only_in_dialog (v : ℚ) :
    load_check_interval (some v) = v
    ∧ 500 ≤ timer_interval_ms (spin_box_value v)
    ∧ timer_interval_ms (spin_box_value v) ≤ 10000 := by
  have h1 : (1 / 2 : ℚ) ≤ spin_box_value v := le_max_left _ _
  have h2 : spin_box_value v ≤ 10 :=
    max_le (by norm_num) (min_le_left _ _)
  have hlo : (500 : ℚ) ≤ spin_box_value v * 1000 := by nlinarith
  have hhi : spin_box_value v * 1000 ≤ (10000 : ℚ) := by nlinarith
  have hpos : (0 : ℚ) ≤ spin_box_value v * 1000 := by linarith
  refine ⟨rfl, ?_, ?_⟩
  · unfold timer_interval_ms pyIntQ
    rw [if_pos hpos]
    exact Int.le_floor.mpr (by exact_mod_cast hlo)
  · unfold timer_interval_ms pyIntQ
    rw [if_pos hpos]
    calc ⌊spin_box_value v * 1000⌋ ≤ ⌊(10000 : ℚ)⌋ := Int.floor_le_floor hhi
      _ = 10000 := by norm_num

/-- C6 witness: concrete applications of the universally quantified
parts of the rejection/acceptance theorem. -/
theorem ipv6_reject_rules_witness :
    is_valid_ipv6 "1::2::3" = false
    ∧ is_valid_ipv6 (joinColon ["2001", "0db8", "85a3", "0000", "0000",
        "8a2e", "0370", "7334"]) = true :=
  ⟨ipv6_reject_rules_and_fullform.2.2.1 "1::2::3" (by decide),
   ipv6_reject_rules_and_fullform.2.2.2.2.2
     ["2001", "0db8", "85a3", "0000", "0000", "8a2e", "0370", "7334"]
     (by decide) (by decide)⟩

/-- C7 witness: the characterization applied to `"192.168.0.1"`'s
octet tokens. -/
theorem ipv4_octet_characterization_witness :
    (is_valid_ipv4 (String.mk (['1', '9', '2'] ++ '.' :: (['1', '6', '8'] ++
        '.' :: (['0'] ++ '.' :: ['1'])))) = true
      ↔ ((decValue ['1', '9', '2'] ≤ 255 ∧
            ¬(['1', '9', '2'].head? = some '0' ∧ 1 < ['1', '9', '2'].length))
        ∧ (decValue ['1', '6', '8'] ≤ 255 ∧
            ¬(['1', '6', '8'].head? = some '0' ∧ 1 < ['1', '6', '8'].length))
        ∧ (decValue ['0'] ≤ 255 ∧ ¬(['0'].head? = some '0' ∧ 1 < ['0'].length))
        ∧ (decValue ['1'] ≤ 255 ∧ ¬(['1'].head? = some '0' ∧ 1 < ['1'].length)))) :=
  ipv4_octet_characterization ['1', '9', '2'] ['1', '6', '8'] ['0'] ['1']
    (by decide) (by decide) (by decide) (by decide)

end IPAnalyzer
